import Mathlib

/-!
Verification development for the call-graph construction engine of
codeanalyzer-go. The definitions below are a shallow embedding of
src/internal/callgraph/builder.go (package callgraph) plus the small
CLI fragments of cmd/main.go that interact with it, and a spec-level
model of the CHA/RTA algorithms that the builder obtains from the
external golang.org/x/tools library.
-/

/-! ## String helpers (models of the Go strings package operations used) -/

/-- Model of the suffix-after-last-dot operation used by
normalizeReceiverType: Go computes strings.LastIndex(t, ".") and keeps
t[idx+1:] when a dot exists, the whole string otherwise. -/
def afterLastDotL (l : List Char) : List Char :=
  ((l.reverse.takeWhile (fun c => !(c == '.'))).reverse)

/-- Head-is-star test: model of strings.HasPrefix(t, "*"). -/
def headIsStar : List Char → Bool
  | c :: _ => c == '*'
  | [] => false

/-- startsWithL hay needle: needle is an initial segment of hay. -/
def startsWithL : List Char → List Char → Bool
  | _, [] => true
  | [], _ :: _ => false
  | a :: as, b :: bs => a == b && startsWithL as bs

/-- containsSubL needle hay: model of strings.Contains(hay, needle). -/
def containsSubL (needle : List Char) : List Char → Bool
  | [] => startsWithL [] needle
  | h :: t => startsWithL (h :: t) needle || containsSubL needle t

/-- Model of strings.Contains(hay, needle). -/
def stringContains (hay needle : String) : Bool :=
  containsSubL needle.data hay.data

/-- Model of strings.ToLower, character by character (the inputs at
hand are ASCII). -/
def toLowerStr (s : String) : String := String.mk (s.data.map Char.toLower)

/-! ## Schema types (src/pkg/schema/cldk_schema.go) -/

/-- CLDKPosition (only the fields the builder writes). -/
structure CLDKPosition where
  file : String
  startLine : Int
  startColumn : Int
  deriving Repr, DecidableEq

/-- CLDKCGNode: a node of the call graph. -/
structure CLDKCGNode where
  id : String
  qualifiedName : String
  package : String
  name : String
  kind : String
  position : Option CLDKPosition
  deriving Repr, DecidableEq

/-- CLDKCGEdge: an edge of the call graph. -/
structure CLDKCGEdge where
  source : String
  target : String
  callSite : Option CLDKPosition
  kind : String
  deriving Repr, DecidableEq

/-- CLDKCallGraph: the output artifact of Build. -/
structure CLDKCallGraph where
  algorithm : String
  nodes : List CLDKCGNode
  edges : List CLDKCGEdge
  deriving Repr, DecidableEq

/-- Issue (src/pkg/schema/cldk_schema.go): a non-fatal diagnostic. -/
structure Issue where
  severity : String
  code : String
  message : String
  position : Option CLDKPosition
  deriving Repr, DecidableEq

/-! ## SSA-level input model

The builder consumes an ssa.Program and the callgraph.Graph produced by
the external cha/rta library. Functions are modelled by the data the
builder reads from them: name, owning package path (none when f.Pkg or
f.Pkg.Pkg is nil), receiver type string (none when f.Signature.Recv()
is nil), the f.String() fallback, and the already-resolved,
already-relativized source position (none when invalid). -/

structure SSAFunction where
  name : String
  pkgPath : Option String
  recvType : Option String
  stringRepr : String
  pos : Option CLDKPosition
  deriving Repr, DecidableEq

/-- Syntactic kind of a call site: ssa.Go, ssa.Defer, or any other
instruction (ordinary call). -/
inductive SiteKind where
  | goSite
  | deferSite
  | callSite
  deriving Repr, DecidableEq

/-- A call-site record: its kind and its resolved position (none when
fset.Position(e.Site.Pos()) is invalid). -/
structure Site where
  kind : SiteKind
  pos : Option CLDKPosition
  deriving Repr, DecidableEq

/-- A raw edge of the library call graph. A nil edge, nil Caller node or
nil Caller.Func all make the builder skip, so they are collapsed into
caller = none (same for callee). -/
structure CGEdgeIn where
  caller : Option SSAFunction
  callee : Option SSAFunction
  site : Option Site
  deriving Repr, DecidableEq

/-- A raw node of the library call graph with its outgoing edges. -/
structure CGNodeIn where
  func : Option SSAFunction
  out : List CGEdgeIn
  deriving Repr, DecidableEq

/-- The raw callgraph.Graph handed to the conversion loop. -/
structure RawGraph where
  nodes : List CGNodeIn
  deriving Repr, DecidableEq

/-- The data Build extracts from a non-nil ssa.Program: the graph the
cha library yields on it, the graph the rta library yields on the
main/init roots, and whether any such root exists. -/
structure SSAProgramModel where
  chaGraph : RawGraph
  rtaGraph : RawGraph
  hasRoots : Bool
  deriving Repr, DecidableEq

/-- LoadResult (src/internal/loader/loader.go): the fields Build reads. -/
structure LoadResult where
  ssaProgram : Option SSAProgramModel
  root : String
  deriving Repr, DecidableEq

/-- Config (src/internal/callgraph/builder.go). -/
structure Config where
  algorithm : String
  emitPositions : String
  onlyPkg : List String
  deriving Repr, DecidableEq

/-! ## Identity (stableFuncID, normalizeReceiverType) -/

/-- normalizeReceiverType on the character list: strip a leading star,
keep only the part after the last dot, and re-parenthesize pointer
receivers as (*T). -/
def normalizeReceiverTypeL (l : List Char) : List Char :=
  if headIsStar l then '(' :: '*' :: (afterLastDotL l.tail ++ [')'])
  else afterLastDotL l

/-- normalizeReceiverType (src/internal/callgraph/builder.go:266). The
pkg argument is accepted and ignored exactly as in the source. -/
def normalizeReceiverType (t pkg : String) : String :=
  String.mk (normalizeReceiverTypeL t.data)

/-- stableFuncID (src/internal/callgraph/builder.go:236). The nil-
function case returns "" at the call sites that guard it; functions
here model the non-nil ones. -/
def stableFuncID (f : SSAFunction) : String :=
  match f.pkgPath with
  | none => if f.name = "" then f.stringRepr else f.name
  | some pkg =>
    match f.recvType with
    | some t => pkg ++ "." ++ normalizeReceiverType t pkg ++ "." ++ f.name
    | none => pkg ++ "." ++ f.name

/-! ## The conversion loop of Build (src/internal/callgraph/builder.go:98) -/

/-- Association-list lookup, modelling a Go map read (the maps in Build
are only read through presence checks and written once per key). -/
def lookupA {α : Type} (l : List (String × α)) (k : String) : Option α :=
  (l.find? (fun kv => kv.1 == k)).map (fun kv => kv.2)

/-- buildNode (src/internal/callgraph/builder.go:194). -/
def buildNode (f : SSAFunction) (cfg : Config) : CLDKCGNode :=
  { id := stableFuncID f
    qualifiedName := stableFuncID f
    name := f.name
    package := f.pkgPath.getD ("")
    kind := if f.recvType.isSome then "method" else "function"
    position := if cfg.emitPositions = "minimal" then none else f.pos }

/-- inAllowedPkgs (closure in Build, src/internal/callgraph/builder.go:82).
The f == nil branch is unreachable at its call sites (both are guarded),
so the model takes a non-nil function. -/
def inAllowedPkgs (cfg : Config) (f : SSAFunction) : Bool :=
  match f.pkgPath with
  | none => cfg.onlyPkg.isEmpty
  | some pp =>
    if cfg.onlyPkg.isEmpty then true
    else cfg.onlyPkg.any (fun s => !(s == "") && stringContains pp s)

/-- Edge-kind string chosen from the call site: ssa.Go yields "go",
ssa.Defer yields "defer", any other site "call"; a nil site leaves the
Kind field at its zero value "". -/
def kindOfSite : Option Site → String
  | none => ""
  | some s =>
    match s.kind with
    | .goSite => "go"
    | .deferSite => "defer"
    | .callSite => "call"

/-- The CLDK edge record built at a call site
(src/internal/callgraph/builder.go:137). -/
def mkEdge (cfg : Config) (srcID dstID : String) (site : Option Site) : CLDKCGEdge :=
  { source := srcID
    target := dstID
    callSite := if cfg.emitPositions = "minimal" then none else site.bind Site.pos
    kind := kindOfSite site }

/-- State of the conversion loop: the nodeSet and edgeSet maps, as
insertion-ordered association lists. -/
structure BState where
  nodeSet : List (String × CLDKCGNode)
  edgeSet : List (String × CLDKCGEdge)
  deriving Repr, DecidableEq

/-- Lazy node insertion (src/internal/callgraph/builder.go:127): add a
node record keyed by its identity only when absent. -/
def addNodeList (cfg : Config) (f : SSAFunction) (ns : List (String × CLDKCGNode)) :
    List (String × CLDKCGNode) :=
  if (lookupA ns (stableFuncID f)).isNone then
    ns ++ [(stableFuncID f, buildNode f cfg)]
  else ns

/-- Deduplicating edge insertion (src/internal/callgraph/builder.go:135):
keyed by srcID + "→" + dstID, first call site wins. -/
def addEdgeEntry (cfg : Config) (src dst : SSAFunction) (site : Option Site)
    (es : List (String × CLDKCGEdge)) : List (String × CLDKCGEdge) :=
  if (lookupA es (stableFuncID src ++ "→" ++ stableFuncID dst)).isNone then
    es ++ [(stableFuncID src ++ "→" ++ stableFuncID dst,
            mkEdge cfg (stableFuncID src) (stableFuncID dst) site)]
  else es

/-- Body of the inner loop over n.Out
(src/internal/callgraph/builder.go:104). -/
def processEdge (cfg : Config) (st : BState) (e : CGEdgeIn) : BState :=
  match e.caller, e.callee with
  | some src, some dst =>
    if !cfg.onlyPkg.isEmpty && !(inAllowedPkgs cfg src) && !(inAllowedPkgs cfg dst) then st
    else if stableFuncID src = "" ∨ stableFuncID dst = "" then st
    else
      { nodeSet := addNodeList cfg dst (addNodeList cfg src st.nodeSet)
        edgeSet := addEdgeEntry cfg src dst e.site st.edgeSet }
  | _, _ => st

/-- Body of the outer loop over cg.Nodes
(src/internal/callgraph/builder.go:99): nil nodes and nil functions are
skipped. -/
def processNode (cfg : Config) (st : BState) (n : CGNodeIn) : BState :=
  match n.func with
  | none => st
  | some _ => n.out.foldl (processEdge cfg) st

/-- The full conversion pass over the raw graph. -/
def buildState (cfg : Config) (g : RawGraph) : BState :=
  g.nodes.foldl (processNode cfg) { nodeSet := [], edgeSet := [] }

/-! The byte-order comparison Go's sort uses on identity strings,
modelled as codepoint-lexicographic order on the characters (the two
agree on the ASCII identities at hand), defined so it evaluates by
kernel reduction. -/

/-- Character comparison by codepoint. -/
def charLtB (a b : Char) : Bool := decide (a.val.toNat < b.val.toNat)

/-- Lexicographic strict order on character lists. -/
def lexLt : List Char → List Char → Bool
  | [], [] => false
  | [], _ :: _ => true
  | _ :: _, [] => false
  | a :: as, b :: bs => charLtB a b || (a == b && lexLt as bs)

theorem char_eq_of_toNat_eq {a b : Char} (h : a.val.toNat = b.val.toNat) : a = b :=
  Char.ext (UInt32.toNat.inj h)

theorem lexLt_asymm : ∀ l1 l2 : List Char, lexLt l1 l2 = true → lexLt l2 l1 = true → False
  | [], [], h1, _ => by simp [lexLt] at h1
  | [], _ :: _, _, h2 => by simp [lexLt] at h2
  | _ :: _, [], h1, _ => by simp [lexLt] at h1
  | a :: as, b :: bs, h1, h2 => by
    simp only [lexLt, Bool.or_eq_true, Bool.and_eq_true, beq_iff_eq, charLtB,
      decide_eq_true_eq] at h1 h2
    rcases h1 with h1 | ⟨h1e, h1r⟩
    · rcases h2 with h2 | ⟨h2e, _⟩
      · omega
      · subst h2e; omega
    · rcases h2 with h2 | ⟨_, h2r⟩
      · subst h1e; omega
      · exact lexLt_asymm as bs h1r h2r

theorem lexLt_trans : ∀ l1 l2 l3 : List Char,
    lexLt l1 l2 = true → lexLt l2 l3 = true → lexLt l1 l3 = true
  | [], [], _, h1, _ => by simp [lexLt] at h1
  | [], _ :: _, [], _, h2 => by simp [lexLt] at h2
  | [], _ :: _, _ :: _, _, _ => by simp [lexLt]
  | _ :: _, [], _, h1, _ => by simp [lexLt] at h1
  | _ :: _, _ :: _, [], _, h2 => by simp [lexLt] at h2
  | a :: as, b :: bs, c :: cs, h1, h2 => by
    simp only [lexLt, Bool.or_eq_true, Bool.and_eq_true, beq_iff_eq, charLtB,
      decide_eq_true_eq] at h1 h2 ⊢
    rcases h1 with h1 | ⟨h1e, h1r⟩
    · rcases h2 with h2 | ⟨h2e, _⟩
      · exact Or.inl (by omega)
      · subst h2e; exact Or.inl h1
    · rcases h2 with h2 | ⟨h2e, h2r⟩
      · subst h1e; exact Or.inl h2
      · exact Or.inr ⟨h1e.trans h2e, lexLt_trans as bs cs h1r h2r⟩

theorem lexLt_trichotomy : ∀ l1 l2 : List Char,
    lexLt l1 l2 = true ∨ l1 = l2 ∨ lexLt l2 l1 = true
  | [], [] => Or.inr (Or.inl rfl)
  | [], _ :: _ => Or.inl (by simp [lexLt])
  | _ :: _, [] => Or.inr (Or.inr (by simp [lexLt]))
  | a :: as, b :: bs => by
    rcases Nat.lt_trichotomy a.val.toNat b.val.toNat with h | h | h
    · exact Or.inl (by simp [lexLt, charLtB, h])
    · have hab : a = b := char_eq_of_toNat_eq h
      subst hab
      rcases lexLt_trichotomy as bs with h' | h' | h'
      · exact Or.inl (by simp [lexLt, h'])
      · exact Or.inr (Or.inl (by rw [h']))
      · exact Or.inr (Or.inr (by simp [lexLt, h']))
    · exact Or.inr (Or.inr (by simp [lexLt, charLtB, h]))

/-- Strict string order (Go byte order, modelled on codepoints). -/
def strLtP (a b : String) : Prop := lexLt a.data b.data = true

/-- Reflexive string order. -/
def strLeP (a b : String) : Prop := strLtP a b ∨ a = b

instance : DecidableRel strLtP := fun a b =>
  inferInstanceAs (Decidable (lexLt a.data b.data = true))

instance : DecidableRel strLeP := fun a b =>
  inferInstanceAs (Decidable (strLtP a b ∨ a = b))

theorem strLt_asymm {a b : String} (h1 : strLtP a b) (h2 : strLtP b a) : False :=
  lexLt_asymm a.data b.data h1 h2

theorem strLt_trans {a b c : String} (h1 : strLtP a b) (h2 : strLtP b c) : strLtP a c :=
  lexLt_trans a.data b.data c.data h1 h2

theorem strLt_trichotomy (a b : String) : strLtP a b ∨ a = b ∨ strLtP b a := by
  rcases lexLt_trichotomy a.data b.data with h | h | h
  · exact Or.inl h
  · exact Or.inr (Or.inl (String.ext h))
  · exact Or.inr (Or.inr h)

theorem strLe_total (a b : String) : strLeP a b ∨ strLeP b a := by
  rcases strLt_trichotomy a b with h | h | h
  · exact Or.inl (Or.inl h)
  · exact Or.inl (Or.inr h)
  · exact Or.inr (Or.inl h)

theorem strLe_trans {a b c : String} (h1 : strLeP a b) (h2 : strLeP b c) : strLeP a c := by
  rcases h1 with h1 | h1
  · rcases h2 with h2 | h2
    · exact Or.inl (strLt_trans h1 h2)
    · exact Or.inl (h2 ▸ h1)
  · exact h1 ▸ h2

theorem strLt_of_le_of_ne {a b : String} (h : strLeP a b) (hne : a ≠ b) : strLtP a b :=
  h.resolve_right hne

/-- Node order used by the final sort: identity string ascending. -/
def nodeLe (a b : CLDKCGNode) : Prop := strLeP a.id b.id

/-- Edge order used by the final sort: (source, target) lexicographic
ascending. -/
def edgeLe (a b : CLDKCGEdge) : Prop :=
  strLtP a.source b.source ∨ (a.source = b.source ∧ strLeP a.target b.target)

instance : DecidableRel nodeLe := fun a b => inferInstanceAs (Decidable (strLeP a.id b.id))

instance : DecidableRel edgeLe := fun a b =>
  inferInstanceAs (Decidable (strLtP a.source b.source ∨
    (a.source = b.source ∧ strLeP a.target b.target)))

instance : IsTotal CLDKCGNode nodeLe := ⟨fun a b => strLe_total a.id b.id⟩

instance : IsTrans CLDKCGNode nodeLe := ⟨fun _ _ _ h1 h2 => strLe_trans h1 h2⟩

instance : IsTotal CLDKCGEdge edgeLe := by
  constructor
  intro a b
  rcases strLt_trichotomy a.source b.source with h | h | h
  · exact Or.inl (Or.inl h)
  · rcases strLe_total a.target b.target with h2 | h2
    · exact Or.inl (Or.inr ⟨h, h2⟩)
    · exact Or.inr (Or.inr ⟨h.symm, h2⟩)
  · exact Or.inr (Or.inl h)

instance : IsTrans CLDKCGEdge edgeLe := by
  constructor
  intro a b c h1 h2
  rcases h1 with h1 | ⟨h1e, h1t⟩
  · rcases h2 with h2 | ⟨h2e, _⟩
    · exact Or.inl (strLt_trans h1 h2)
    · exact Or.inl (h2e ▸ h1)
  · rcases h2 with h2 | ⟨h2e, h2t⟩
    · exact Or.inl (h1e ▸ h2)
    · exact Or.inr ⟨h1e.trans h2e, strLe_trans h1t h2t⟩

/-- The node sort of src/internal/callgraph/builder.go:176. -/
def sortNodes (l : List CLDKCGNode) : List CLDKCGNode := List.insertionSort nodeLe l

/-- The edge sort of src/internal/callgraph/builder.go:183. -/
def sortEdges (l : List CLDKCGEdge) : List CLDKCGEdge := List.insertionSort edgeLe l

/-- Conversion of a raw graph into the CLDK artifact: run the loop,
then emit sorted slices (src/internal/callgraph/builder.go:70-190). -/
def assemble (cfg : Config) (g : RawGraph) (algo : String) : CLDKCallGraph :=
  { algorithm := algo
    nodes := sortNodes ((buildState cfg g).nodeSet.map (fun kv => kv.2))
    edges := sortEdges ((buildState cfg g).edgeSet.map (fun kv => kv.2)) }

/-- Build (src/internal/callgraph/builder.go:29). -/
def Build (result : LoadResult) (cfg : Config) : Except String CLDKCallGraph :=
  match result.ssaProgram with
  | none => Except.error ("SSAProgram is nil, call LoadWithSSA with NeedSSA=true")
  | some prog =>
    let algo0 := toLowerStr cfg.algorithm
    let algo1 := if algo0 = "" then "rta" else algo0
    if algo1 = "rta" then
      if prog.hasRoots then Except.ok (assemble cfg prog.rtaGraph ("rta"))
      else Except.ok (assemble cfg prog.chaGraph ("cha-fallback"))
    else Except.ok (assemble cfg prog.chaGraph ("cha"))

/-- The CLI's issue handling around callgraph.Build (cmd main.go,
src/unnamed/part_000:266): a warning issue is appended only when Build
returns an error; a successful Build adds no issue. -/
def runCallGraphIssues (result : LoadResult) (cfg : Config) : List Issue :=
  match Build result cfg with
  | Except.error msg =>
    [{ severity := "warning", code := "CALLGRAPH_ERROR",
       message := "Failed to build call graph: " ++ msg, position := none }]
  | Except.ok _ => []

/-- The CLI's algorithm validation (validateConfig,
src/unnamed/part_000:187): only "cha" and "rta" (case-insensitively)
are accepted. -/
def cgAlgoValid (s : String) : Bool :=
  toLowerStr s == "cha" || toLowerStr s == "rta"

/-! ## Basic lemmas about the association-list maps -/

theorem lookupA_eq_none_iff {α : Type} {l : List (String × α)} {k : String} :
    lookupA l k = none ↔ ∀ kv ∈ l, kv.1 ≠ k := by
  simp [lookupA, List.find?_eq_none]

theorem mem_keys_of_lookupA_not_none {α : Type} {l : List (String × α)} {k : String}
    (h : ¬ (lookupA l k).isNone = true) : k ∈ l.map (fun kv => kv.1) := by
  rcases h' : l.find? (fun kv => kv.1 == k) with _ | kv
  · exact absurd (by simp [lookupA, h']) h
  · have hmem := List.mem_of_find?_eq_some h'
    have hp := List.find?_some h'
    simp only [beq_iff_eq] at hp
    exact hp ▸ List.mem_map_of_mem (fun kv => kv.1) hmem

theorem nodup_append_singleton {α : Type} {l : List α} {x : α}
    (hl : l.Nodup) (hx : x ∉ l) : (l ++ [x]).Nodup := by
  simp [List.nodup_append, hl, hx]

/-! ## Invariant of the conversion-loop state -/

/-- The well-formedness facts the loop maintains: nodeSet keys are
distinct and equal to the stored node's identity; edgeSet keys are
distinct and of the form source + "→" + target; every stored edge's
endpoints are node keys and its kind is one of the four values the
loop can write. -/
def stInv (st : BState) : Prop :=
  (st.nodeSet.map (fun kv => kv.1)).Nodup ∧
  (∀ kv ∈ st.nodeSet, kv.2.id = kv.1) ∧
  (st.edgeSet.map (fun kv => kv.1)).Nodup ∧
  (∀ ke ∈ st.edgeSet,
    ke.1 = ke.2.source ++ "→" ++ ke.2.target ∧
    ke.2.source ∈ st.nodeSet.map (fun kv => kv.1) ∧
    ke.2.target ∈ st.nodeSet.map (fun kv => kv.1) ∧
    ke.2.kind ∈ (["call", "defer", "go", ""] : List String))

theorem addNodeList_keys_nodup {cfg : Config} {f : SSAFunction}
    {ns : List (String × CLDKCGNode)} (h : (ns.map (fun kv => kv.1)).Nodup) :
    ((addNodeList cfg f ns).map (fun kv => kv.1)).Nodup := by
  unfold addNodeList
  split
  · next hnone =>
    have hnotmem : stableFuncID f ∉ ns.map (fun kv => kv.1) := by
      rw [Option.isNone_iff_eq_none] at hnone
      rw [lookupA_eq_none_iff] at hnone
      simp only [List.mem_map]
      rintro ⟨kv, hkv, hk⟩
      exact hnone kv hkv hk
    simpa using nodup_append_singleton h hnotmem
  · exact h

theorem addNodeList_id_eq {cfg : Config} {f : SSAFunction}
    {ns : List (String × CLDKCGNode)} (h : ∀ kv ∈ ns, kv.2.id = kv.1) :
    ∀ kv ∈ addNodeList cfg f ns, kv.2.id = kv.1 := by
  unfold addNodeList
  split
  · intro kv hkv
    rcases List.mem_append.mp hkv with hkv | hkv
    · exact h kv hkv
    · simp only [List.mem_singleton] at hkv
      subst hkv
      rfl
  · exact h

theorem addNodeList_keys_mono {cfg : Config} {f : SSAFunction}
    {ns : List (String × CLDKCGNode)} {k : String}
    (h : k ∈ ns.map (fun kv => kv.1)) :
    k ∈ (addNodeList cfg f ns).map (fun kv => kv.1) := by
  unfold addNodeList
  split
  · simp only [List.map_append, List.mem_append]
    exact Or.inl h
  · exact h

theorem mem_keys_addNodeList (cfg : Config) (f : SSAFunction)
    (ns : List (String × CLDKCGNode)) :
    stableFuncID f ∈ (addNodeList cfg f ns).map (fun kv => kv.1) := by
  unfold addNodeList
  split
  · simp
  · next h =>
    exact mem_keys_of_lookupA_not_none (by simpa using h)

theorem addEdgeEntry_keys_nodup {cfg : Config} {src dst : SSAFunction}
    {site : Option Site} {es : List (String × CLDKCGEdge)}
    (h : (es.map (fun kv => kv.1)).Nodup) :
    ((addEdgeEntry cfg src dst site es).map (fun kv => kv.1)).Nodup := by
  unfold addEdgeEntry
  split
  · next hnone =>
    have hnotmem : stableFuncID src ++ "→" ++ stableFuncID dst ∉
        es.map (fun kv => kv.1) := by
      rw [Option.isNone_iff_eq_none] at hnone
      rw [lookupA_eq_none_iff] at hnone
      simp only [List.mem_map]
      rintro ⟨kv, hkv, hk⟩
      exact hnone kv hkv hk
    simpa using nodup_append_singleton h hnotmem
  · exact h

theorem addEdgeEntry_mem {cfg : Config} {src dst : SSAFunction}
    {site : Option Site} {es : List (String × CLDKCGEdge)} {ke : String × CLDKCGEdge}
    (h : ke ∈ addEdgeEntry cfg src dst site es) :
    ke ∈ es ∨ ke = (stableFuncID src ++ "→" ++ stableFuncID dst,
      mkEdge cfg (stableFuncID src) (stableFuncID dst) site) := by
  unfold addEdgeEntry at h
  split at h
  · rcases List.mem_append.mp h with h | h
    · exact Or.inl h
    · simp only [List.mem_singleton] at h
      exact Or.inr h
  · exact Or.inl h

theorem kindOfSite_mem (site : Option Site) :
    kindOfSite site ∈ (["call", "defer", "go", ""] : List String) := by
  rcases site with _ | s
  · simp [kindOfSite]
  · rcases s with ⟨k, p⟩
    cases k <;> simp [kindOfSite]

theorem stInv_processEdge {cfg : Config} {st : BState} (e : CGEdgeIn)
    (h : stInv st) : stInv (processEdge cfg st e) := by
  obtain ⟨hn1, hn2, he1, he2⟩ := h
  unfold processEdge
  rcases e.caller with _ | src
  · exact ⟨hn1, hn2, he1, he2⟩
  rcases e.callee with _ | dst
  · exact ⟨hn1, hn2, he1, he2⟩
  simp only
  split
  · exact ⟨hn1, hn2, he1, he2⟩
  split
  · exact ⟨hn1, hn2, he1, he2⟩
  refine ⟨?_, ?_, ?_, ?_⟩
  · exact addNodeList_keys_nodup (addNodeList_keys_nodup hn1)
  · exact addNodeList_id_eq (addNodeList_id_eq hn2)
  · exact addEdgeEntry_keys_nodup he1
  · intro ke hke
    rcases addEdgeEntry_mem hke with hke | hke
    · obtain ⟨hk1, hk2, hk3, hk4⟩ := he2 ke hke
      exact ⟨hk1, addNodeList_keys_mono (addNodeList_keys_mono hk2),
        addNodeList_keys_mono (addNodeList_keys_mono hk3), hk4⟩
    · subst hke
      refine ⟨rfl, ?_, ?_, kindOfSite_mem e.site⟩
      · exact addNodeList_keys_mono (mem_keys_addNodeList cfg src st.nodeSet)
      · exact mem_keys_addNodeList cfg dst (addNodeList cfg src st.nodeSet)

theorem foldl_preserve {α σ : Type} (P : σ → Prop) (f : σ → α → σ)
    (hstep : ∀ s a, P s → P (f s a)) :
    ∀ (l : List α) (s : σ), P s → P (l.foldl f s)
  | [], _, h => h
  | a :: l, s, h => foldl_preserve P f hstep l (f s a) (hstep s a h)

theorem stInv_processNode {cfg : Config} {st : BState} (n : CGNodeIn)
    (h : stInv st) : stInv (processNode cfg st n) := by
  unfold processNode
  rcases n.func with _ | f
  · exact h
  · exact foldl_preserve stInv (processEdge cfg)
      (fun s e hs => stInv_processEdge e hs) n.out st h

theorem stInv_buildState (cfg : Config) (g : RawGraph) : stInv (buildState cfg g) := by
  unfold buildState
  refine foldl_preserve stInv (processNode cfg)
    (fun s n hs => stInv_processNode n hs) g.nodes _ ?_
  refine ⟨List.nodup_nil, ?_, List.nodup_nil, ?_⟩ <;> intro kv hkv <;> cases hkv

/-! ## From the final state to the sorted output of assemble -/

theorem assemble_nodes_perm (cfg : Config) (g : RawGraph) (algo : String) :
    ((assemble cfg g algo).nodes).Perm
      ((buildState cfg g).nodeSet.map (fun kv => kv.2)) :=
  List.perm_insertionSort nodeLe _

theorem assemble_edges_perm (cfg : Config) (g : RawGraph) (algo : String) :
    ((assemble cfg g algo).edges).Perm
      ((buildState cfg g).edgeSet.map (fun kv => kv.2)) :=
  List.perm_insertionSort edgeLe _

theorem assemble_nodes_ids_nodup (cfg : Config) (g : RawGraph) (algo : String) :
    ((assemble cfg g algo).nodes.map (fun n => n.id)).Nodup := by
  obtain ⟨hn1, hn2, -, -⟩ := stInv_buildState cfg g
  have hmapeq : ((buildState cfg g).nodeSet.map (fun kv => kv.2)).map (fun n => n.id)
      = (buildState cfg g).nodeSet.map (fun kv => kv.1) := by
    rw [List.map_map]
    exact List.map_congr_left (fun kv hkv => hn2 kv hkv)
  have hperm := (assemble_nodes_perm cfg g algo).map (fun n => n.id)
  rw [hmapeq] at hperm
  exact hperm.nodup_iff.mpr hn1

theorem assemble_edge_endpoints (cfg : Config) (g : RawGraph) (algo : String) :
    ∀ e ∈ (assemble cfg g algo).edges,
      (∃ n ∈ (assemble cfg g algo).nodes, n.id = e.source) ∧
      (∃ n ∈ (assemble cfg g algo).nodes, n.id = e.target) := by
  obtain ⟨-, hn2, -, he2⟩ := stInv_buildState cfg g
  intro e he
  have hmem := (assemble_edges_perm cfg g algo).mem_iff.mp he
  obtain ⟨ke, hke, hkeq⟩ := List.mem_map.mp hmem
  subst hkeq
  obtain ⟨-, hsrc, htgt, -⟩ := he2 ke hke
  constructor
  · obtain ⟨kv, hkv, hkveq⟩ := List.mem_map.mp hsrc
    refine ⟨kv.2, ?_, by rw [hn2 kv hkv, hkveq]⟩
    exact (assemble_nodes_perm cfg g algo).mem_iff.mpr (List.mem_map_of_mem _ hkv)
  · obtain ⟨kv, hkv, hkveq⟩ := List.mem_map.mp htgt
    refine ⟨kv.2, ?_, by rw [hn2 kv hkv, hkveq]⟩
    exact (assemble_nodes_perm cfg g algo).mem_iff.mpr (List.mem_map_of_mem _ hkv)

theorem assemble_edge_kinds (cfg : Config) (g : RawGraph) (algo : String) :
    ∀ e ∈ (assemble cfg g algo).edges,
      e.kind ∈ (["call", "defer", "go", ""] : List String) := by
  obtain ⟨-, -, -, he2⟩ := stInv_buildState cfg g
  intro e he
  have hmem := (assemble_edges_perm cfg g algo).mem_iff.mp he
  obtain ⟨ke, hke, hkeq⟩ := List.mem_map.mp hmem
  subst hkeq
  exact (he2 ke hke).2.2.2

theorem assemble_edges_pairwise (cfg : Config) (g : RawGraph) (algo : String) :
    ((assemble cfg g algo).edges).Pairwise
      (fun e1 e2 => e1.source ≠ e2.source ∨ e1.target ≠ e2.target) := by
  obtain ⟨-, -, he1, he2⟩ := stInv_buildState cfg g
  have hkv : ((buildState cfg g).edgeSet).Pairwise (fun a b => a.1 ≠ b.1) :=
    (List.pairwise_map).mp he1
  have hkv2 : ((buildState cfg g).edgeSet).Pairwise
      (fun a b => a.2.source ≠ b.2.source ∨ a.2.target ≠ b.2.target) := by
    refine hkv.imp_of_mem ?_
    intro a b ha hb hne
    by_contra hc
    push_neg at hc
    apply hne
    rw [(he2 a ha).1, (he2 b hb).1, hc.1, hc.2]
  have hvals : (((buildState cfg g).edgeSet).map (fun kv => kv.2)).Pairwise
      (fun e1 e2 => e1.source ≠ e2.source ∨ e1.target ≠ e2.target) :=
    (List.pairwise_map).mpr hkv2
  exact ((assemble_edges_perm cfg g algo).pairwise_iff
    (fun {a b} h => h.imp (fun hh => hh.symm ∘ Eq.symm ∘ Eq.symm) (fun hh => hh ∘ Eq.symm))).mpr hvals

/-! ## Sortedness and order-independence of the emitted lists -/

/-- Strict node order: identity strictly ascending. -/
def nodeLt (a b : CLDKCGNode) : Prop := strLtP a.id b.id

/-- Strict edge order: (source, target) strictly lexicographic. -/
def edgeLt (a b : CLDKCGEdge) : Prop :=
  strLtP a.source b.source ∨ (a.source = b.source ∧ strLtP a.target b.target)

instance : IsAntisymm CLDKCGNode nodeLt :=
  ⟨fun _ _ h1 h2 => (strLt_asymm h1 h2).elim⟩

instance : IsAntisymm CLDKCGEdge edgeLt := by
  constructor
  intro a b h1 h2
  exfalso
  rcases h1 with h1 | ⟨h1e, h1t⟩
  · rcases h2 with h2 | ⟨h2e, _⟩
    · exact strLt_asymm h1 h2
    · exact absurd h1 (by rw [h2e]; exact fun hc => strLt_asymm hc hc)
  · rcases h2 with h2 | ⟨_, h2t⟩
    · exact absurd h2 (by rw [h1e]; exact fun hc => strLt_asymm hc hc)
    · exact strLt_asymm h1t h2t

theorem sorted_nodeLt_of_nodup {l : List CLDKCGNode}
    (hs : List.Sorted nodeLe l) (hn : (l.map (fun n => n.id)).Nodup) :
    List.Sorted nodeLt l := by
  have hne : l.Pairwise (fun a b => a.id ≠ b.id) := (List.pairwise_map).mp hn
  exact (hs.and hne).imp (fun h => strLt_of_le_of_ne h.1 h.2)

theorem sorted_edgeLt_of_nodup {l : List CLDKCGEdge}
    (hs : List.Sorted edgeLe l)
    (hn : (l.map (fun e => (e.source, e.target))).Nodup) :
    List.Sorted edgeLt l := by
  have hne : l.Pairwise (fun a b => (a.source, a.target) ≠ (b.source, b.target)) :=
    (List.pairwise_map).mp hn
  refine (hs.and hne).imp ?_
  rintro a b ⟨hle, hpne⟩
  rcases hle with h | ⟨he, ht⟩
  · exact Or.inl h
  · refine Or.inr ⟨he, strLt_of_le_of_ne ht ?_⟩
    intro hteq
    exact hpne (by rw [he, hteq])

theorem sortNodes_perm (l : List CLDKCGNode) : (sortNodes l).Perm l :=
  List.perm_insertionSort nodeLe l

theorem sortEdges_perm (l : List CLDKCGEdge) : (sortEdges l).Perm l :=
  List.perm_insertionSort edgeLe l

theorem sortNodes_sorted (l : List CLDKCGNode) : List.Sorted nodeLe (sortNodes l) :=
  List.sorted_insertionSort nodeLe l

theorem sortEdges_sorted (l : List CLDKCGEdge) : List.Sorted edgeLe (sortEdges l) :=
  List.sorted_insertionSort edgeLe l

/-- Emitting the node map in any order yields the same sorted list, as
long as identities are distinct: the sort is the only order source. -/
theorem sortNodes_eq_of_perm {l₁ l₂ : List CLDKCGNode} (hp : l₁.Perm l₂)
    (hn : (l₁.map (fun n => n.id)).Nodup) : sortNodes l₁ = sortNodes l₂ := by
  have hn1 : ((sortNodes l₁).map (fun n => n.id)).Nodup :=
    ((sortNodes_perm l₁).map _).nodup_iff.mpr hn
  have hn2 : ((sortNodes l₂).map (fun n => n.id)).Nodup :=
    ((sortNodes_perm l₂).map _).nodup_iff.mpr ((hp.map _).nodup_iff.mp hn)
  have hperm : (sortNodes l₁).Perm (sortNodes l₂) :=
    ((sortNodes_perm l₁).trans hp).trans (sortNodes_perm l₂).symm
  exact List.eq_of_perm_of_sorted hperm
    (sorted_nodeLt_of_nodup (sortNodes_sorted l₁) hn1)
    (sorted_nodeLt_of_nodup (sortNodes_sorted l₂) hn2)

/-- Same order-independence for the edge list, keyed by (source, target). -/
theorem sortEdges_eq_of_perm {l₁ l₂ : List CLDKCGEdge} (hp : l₁.Perm l₂)
    (hn : (l₁.map (fun e => (e.source, e.target))).Nodup) :
    sortEdges l₁ = sortEdges l₂ := by
  have hn1 : ((sortEdges l₁).map (fun e => (e.source, e.target))).Nodup :=
    ((sortEdges_perm l₁).map _).nodup_iff.mpr hn
  have hn2 : ((sortEdges l₂).map (fun e => (e.source, e.target))).Nodup :=
    ((sortEdges_perm l₂).map _).nodup_iff.mpr ((hp.map _).nodup_iff.mp hn)
  have hperm : (sortEdges l₁).Perm (sortEdges l₂) :=
    ((sortEdges_perm l₁).trans hp).trans (sortEdges_perm l₂).symm
  exact List.eq_of_perm_of_sorted hperm
    (sorted_edgeLt_of_nodup (sortEdges_sorted l₁) hn1)
    (sorted_edgeLt_of_nodup (sortEdges_sorted l₂) hn2)

/-! ## Behaviour of the receiver-type normalization -/

theorem takeWhile_eq_self_of_all {p : Char → Bool} :
    ∀ {l : List Char}, (∀ c ∈ l, p c = true) → l.takeWhile p = l
  | [], _ => rfl
  | c :: cs, h => by
    have hc : p c = true := h c (List.mem_cons_self c cs)
    simp only [List.takeWhile_cons, hc, if_true]
    rw [takeWhile_eq_self_of_all (fun d hd => h d (List.mem_cons_of_mem c hd))]

theorem takeWhile_append_stop {p : Char → Bool} {x : Char} (hx : p x = false) :
    ∀ (l1 l2 : List Char), (∀ c ∈ l1, p c = true) →
      (l1 ++ x :: l2).takeWhile p = l1
  | [], l2, _ => by simp [List.takeWhile_cons, hx]
  | c :: cs, l2, h => by
    have hc : p c = true := h c (List.mem_cons_self c cs)
    simp only [List.cons_append, List.takeWhile_cons, hc, if_true]
    rw [takeWhile_append_stop hx cs l2 (fun d hd => h d (List.mem_cons_of_mem c hd))]

theorem afterLastDotL_of_no_dot {l : List Char}
    (h : ∀ c ∈ l, (c == '.') = false) : afterLastDotL l = l := by
  unfold afterLastDotL
  rw [takeWhile_eq_self_of_all (fun c hc => by
    simp only [Bool.not_eq_true']
    exact h c (List.mem_reverse.mp hc))]
  exact List.reverse_reverse l

theorem afterLastDotL_append {a b : List Char}
    (h : ∀ c ∈ b, (c == '.') = false) :
    afterLastDotL (a ++ '.' :: b) = b := by
  unfold afterLastDotL
  have hrev : (a ++ '.' :: b).reverse = b.reverse ++ '.' :: a.reverse := by
    simp
  rw [hrev, takeWhile_append_stop (by simp) b.reverse a.reverse (fun c hc => by
    simp only [Bool.not_eq_true']
    exact h c (List.mem_reverse.mp hc))]
  exact List.reverse_reverse b

/-- On a value-receiver type string q.tn the normalization yields the
bare type name: no parentheses are produced. -/
theorem normalizeReceiverType_value (q tn pkg : String)
    (hq : headIsStar q.data = false)
    (ht : ∀ c ∈ tn.data, (c == '.') = false) :
    normalizeReceiverType (q ++ "." ++ tn) pkg = tn := by
  have hdata : (q ++ "." ++ tn).data = q.data ++ '.' :: tn.data := by
    simp [String.data_append]
  have hstar : headIsStar (q ++ "." ++ tn).data = false := by
    rw [hdata]
    rcases hq' : q.data with _ | ⟨c, cs⟩
    · simp [headIsStar]
    · rw [hq'] at hq
      simpa [headIsStar] using hq
  unfold normalizeReceiverType normalizeReceiverTypeL
  rw [hstar]
  simp only [if_false, Bool.false_eq_true]
  rw [hdata, afterLastDotL_append ht]

/-- On a pointer-receiver type string *q.tn the normalization yields
the parenthesized (*tn). -/
theorem normalizeReceiverType_ptr (q tn pkg : String)
    (ht : ∀ c ∈ tn.data, (c == '.') = false) :
    normalizeReceiverType ("*" ++ q ++ "." ++ tn) pkg = "(*" ++ tn ++ ")" := by
  have hdata : ("*" ++ q ++ "." ++ tn).data = '*' :: (q.data ++ '.' :: tn.data) := by
    simp [String.data_append]
  unfold normalizeReceiverType normalizeReceiverTypeL
  rw [hdata]
  simp only [headIsStar, beq_self_eq_true, if_true, List.tail_cons]
  rw [afterLastDotL_append ht]
  apply String.ext
  simp [String.data_append]

/-! ## Spec-level model of the CHA and RTA builders

Modelled from the spec: the CHA Builder (spec section 4.1) and the RTA
Builder (spec section 4.2) are implemented by the external
golang.org/x/tools library (cha.CallGraph, rta.Analyze); the repository
only invokes them, so their algorithms are modelled here from the
spec's contracts: CHA resolves an interface call to every declared
concrete type satisfying the interface that declares the method; RTA
computes a monotone fixpoint of (ReachableFunctions, LiveTypes) from
the entry points, resolving interface calls only against live types. -/

/-- A call site of the spec's program representation: a direct call or
an interface call of method m on interface i. -/
inductive SpecCallSite where
  | direct (target : String)
  | iface (i : String) (m : String)
  deriving Repr, DecidableEq

/-- A declared function: identity, body call sites, and the concrete
types its body instantiates. -/
structure SpecFunction where
  fid : String
  sites : List SpecCallSite
  instantiates : List String
  deriving Repr, DecidableEq

/-- The spec's fully resolved program representation: declared
functions, declared concrete types, the precomputed Satisfies relation
and the method lookup (type, method name) to the implementing
function. -/
structure SpecProgram where
  funcs : List SpecFunction
  types : List String
  satisfies : String → String → Bool
  methodOf : String → String → Option String

/-- Body lookup by function identity. -/
def lookupFunc (p : SpecProgram) (f : String) : Option SpecFunction :=
  p.funcs.find? (fun F => F.fid == f)

/-- CHA resolution of one call site: a direct call resolves to its
target; an interface call resolves to the method on every declared
type that satisfies the interface. -/
def resolveCHA (p : SpecProgram) (s : SpecCallSite) : List String :=
  match s with
  | .direct t => [t]
  | .iface i m => (p.types.filter (fun T => p.satisfies T i)).filterMap
      (fun T => p.methodOf T m)

/-- RTA resolution of one call site against the current live-type set:
interface calls are restricted to live types. -/
def resolveRTA (p : SpecProgram) (live : List String) (s : SpecCallSite) : List String :=
  match s with
  | .direct t => [t]
  | .iface i m => (live.filter (fun T => p.satisfies T i)).filterMap
      (fun T => p.methodOf T m)

/-- The two monotone sets of the RTA fixpoint. -/
structure RTAState where
  reach : List String
  live : List String
  deriving Repr, DecidableEq

/-- Add the new elements not already present. -/
def addNew (xs new : List String) : List String :=
  xs ++ new.filter (fun x => decide (x ∉ xs))

/-- One fixpoint round: process every currently reachable function's
body against the current live set, growing both sets. -/
def rtaStep (p : SpecProgram) (st : RTAState) : RTAState :=
  let bodies := st.reach.filterMap (lookupFunc p)
  { reach := addNew st.reach (bodies.flatMap (fun F => F.sites.flatMap (resolveRTA p st.live)))
    live := addNew st.live (bodies.flatMap (fun F => F.instantiates)) }

/-- Iterated rounds. -/
def rtaIter (p : SpecProgram) : Nat → RTAState → RTAState
  | 0, st => st
  | n + 1, st => rtaIter p n (rtaStep p st)

/-- The RTA fixpoint from the entry points: both sets are bounded by
the finite program, so enough rounds reach the fixpoint. -/
def rtaFixpoint (p : SpecProgram) (entries : List String) : RTAState :=
  rtaIter p (p.funcs.length + p.types.length + 1) { reach := entries, live := [] }

/-- Edges of the RTA-built graph: call sites of reachable bodies,
resolved against the final live set. -/
def rtaEdges (p : SpecProgram) (entries : List String) : List (String × String) :=
  let st := rtaFixpoint p entries
  (st.reach.filterMap (lookupFunc p)).flatMap
    (fun F => F.sites.flatMap (fun s => (resolveRTA p st.live s).map (fun g => (F.fid, g))))

/-- Edges of the CHA-built graph: every declared body's call sites,
conservatively resolved. -/
def chaEdges (p : SpecProgram) : List (String × String) :=
  p.funcs.flatMap
    (fun F => F.sites.flatMap (fun s => (resolveCHA p s).map (fun g => (F.fid, g))))

/-- The functions appearing as nodes of a graph given by its edges. -/
def nodesOfEdges (es : List (String × String)) : List String :=
  es.flatMap (fun e => [e.1, e.2])

theorem mem_addNew {xs new : List String} {y : String} (h : y ∈ addNew xs new) :
    y ∈ xs ∨ y ∈ new := by
  rcases List.mem_append.mp h with h | h
  · exact Or.inl h
  · exact Or.inr (List.mem_filter.mp h).1

theorem lookupFunc_mem {p : SpecProgram} {f : String} {F : SpecFunction}
    (h : lookupFunc p f = some F) : F ∈ p.funcs :=
  List.mem_of_find?_eq_some h

/-- The live-type set stays inside the declared types, provided every
body only instantiates declared types. -/
theorem rtaIter_live_subset {p : SpecProgram}
    (hwf : ∀ F ∈ p.funcs, ∀ T ∈ F.instantiates, T ∈ p.types) :
    ∀ (n : Nat) (st : RTAState), (∀ T ∈ st.live, T ∈ p.types) →
      ∀ T ∈ (rtaIter p n st).live, T ∈ p.types
  | 0, _, hst => hst
  | n + 1, st, hst => by
    refine rtaIter_live_subset hwf n (rtaStep p st) ?_
    intro T hT
    rcases mem_addNew hT with hT | hT
    · exact hst T hT
    · obtain ⟨F, hF, hTF⟩ := List.mem_flatMap.mp hT
      obtain ⟨f, -, hf⟩ := List.mem_filterMap.mp hF
      exact hwf F (lookupFunc_mem hf) T hTF

theorem resolveRTA_subset {p : SpecProgram} {live : List String}
    (hlive : ∀ T ∈ live, T ∈ p.types) (s : SpecCallSite) :
    ∀ g ∈ resolveRTA p live s, g ∈ resolveCHA p s := by
  intro g hg
  rcases s with t | ⟨i, m⟩
  · exact hg
  · simp only [resolveRTA, List.mem_filterMap, List.mem_filter] at hg
    obtain ⟨T, ⟨hTl, hTs⟩, hTm⟩ := hg
    simp only [resolveCHA, List.mem_filterMap, List.mem_filter]
    exact ⟨T, ⟨hlive T hTl, hTs⟩, hTm⟩

theorem rtaEdges_subset_chaEdges {p : SpecProgram} {entries : List String}
    (hwf : ∀ F ∈ p.funcs, ∀ T ∈ F.instantiates, T ∈ p.types) :
    ∀ e ∈ rtaEdges p entries, e ∈ chaEdges p := by
  intro e he
  have hlive : ∀ T ∈ (rtaFixpoint p entries).live, T ∈ p.types :=
    rtaIter_live_subset hwf _ _ (fun T hT => by cases hT)
  simp only [rtaEdges, List.mem_flatMap] at he
  obtain ⟨F, hF, s, hs, hg⟩ := he
  obtain ⟨f, -, hf⟩ := List.mem_filterMap.mp hF
  obtain ⟨g, hgr, hge⟩ := List.mem_map.mp hg
  simp only [chaEdges, List.mem_flatMap]
  exact ⟨F, lookupFunc_mem hf, s, hs,
    List.mem_map.mpr ⟨g, resolveRTA_subset hlive s g hgr, hge⟩⟩

/-! ## First-write-wins and retention facts about the edge map -/

theorem lookupA_append_of_some {α : Type} {es : List (String × α)} {k : String}
    {v : α} (l : List (String × α)) (h : lookupA es k = some v) :
    lookupA (es ++ l) k = some v := by
  unfold lookupA at h ⊢
  rcases hf : es.find? (fun kv => kv.1 == k) with _ | kv
  · rw [hf] at h; cases h
  · rw [hf] at h
    rw [List.find?_append, hf]
    exact h

theorem lookupA_addEdgeEntry_of_some {cfg : Config} {src dst : SSAFunction}
    {site : Option Site} {es : List (String × CLDKCGEdge)} {k : String} {ed : CLDKCGEdge}
    (h : lookupA es k = some ed) :
    lookupA (addEdgeEntry cfg src dst site es) k = some ed := by
  unfold addEdgeEntry
  split
  · exact lookupA_append_of_some _ h
  · exact h

/-- Once an edge is recorded for a key, later call sites never change
it: duplicates are ignored and the first observed kind/position is
retained. -/
theorem lookupA_processEdge_of_some {cfg : Config} {st : BState} {e : CGEdgeIn}
    {k : String} {ed : CLDKCGEdge} (h : lookupA st.edgeSet k = some ed) :
    lookupA (processEdge cfg st e).edgeSet k = some ed := by
  unfold processEdge
  rcases e.caller with _ | src
  · exact h
  rcases e.callee with _ | dst
  · exact h
  simp only
  split
  · exact h
  split
  · exact h
  · exact lookupA_addEdgeEntry_of_some h

theorem edgeKeys_mono_processEdge {cfg : Config} {st : BState} {e : CGEdgeIn}
    {k : String} (h : k ∈ st.edgeSet.map (fun kv => kv.1)) :
    k ∈ (processEdge cfg st e).edgeSet.map (fun kv => kv.1) := by
  unfold processEdge
  rcases e.caller with _ | src
  · exact h
  rcases e.callee with _ | dst
  · exact h
  simp only
  split
  · exact h
  split
  · exact h
  · unfold addEdgeEntry
    split
    · simp only [List.map_append, List.mem_append]
      exact Or.inl h
    · exact h

theorem foldl_preserve_mem {α σ : Type} (P : σ → Prop) (f : σ → α → σ) :
    ∀ (l : List α), (∀ s a, a ∈ l → P s → P (f s a)) → ∀ s, P s → P (l.foldl f s)
  | [], _, _, h => h
  | a :: l, hstep, s, h =>
    foldl_preserve_mem P f l (fun s' b hb => hstep s' b (List.mem_cons_of_mem a hb))
      (f s a) (hstep s a (List.mem_cons_self a l) h)

theorem foldl_establish {α σ : Type} (P : σ → Prop) (f : σ → α → σ) (a : α) :
    ∀ (l : List α), a ∈ l → (∀ s b, b ∈ l → P s → P (f s b)) → (∀ s, P (f s a)) →
      ∀ s, P (l.foldl f s)
  | [], ha, _, _, _ => absurd ha (List.not_mem_nil a)
  | b :: l, ha, hpres, hest, s => by
    rcases List.mem_cons.mp ha with rfl | ha'
    · exact foldl_preserve_mem P f l
        (fun s' c hc hps => hpres s' c (List.mem_cons_of_mem _ hc) hps) (f s a) (hest s)
    · exact foldl_establish P f a l ha'
        (fun s' c hc hps => hpres s' c (List.mem_cons_of_mem _ hc) hps) hest (f s b)

/-! ## Retention of filtered-in edges -/

theorem append_arrow_inj : ∀ {a c b d : List Char}, '→' ∉ a → '→' ∉ c →
    a ++ '→' :: b = c ++ '→' :: d → a = c ∧ b = d
  | [], [], b, d, _, _, h => ⟨rfl, by simpa using h⟩
  | [], c0 :: cs, b, d, _, hc, h => by
    simp only [List.nil_append, List.cons_append, List.cons.injEq] at h
    exfalso
    apply hc
    rw [h.1]
    exact List.mem_cons_self c0 cs
  | a0 :: as, [], b, d, ha, _, h => by
    simp only [List.nil_append, List.cons_append, List.cons.injEq] at h
    exfalso
    apply ha
    rw [← h.1]
    exact List.mem_cons_self a0 as
  | a0 :: as, c0 :: cs, b, d, ha, hc, h => by
    simp only [List.cons_append, List.cons.injEq] at h
    obtain ⟨h0, h1⟩ := h
    have := append_arrow_inj (fun hm => ha (List.mem_cons_of_mem a0 hm))
      (fun hm => hc (List.mem_cons_of_mem c0 hm)) h1
    exact ⟨by rw [h0, this.1], this.2⟩

theorem arrow_key_data (x y : String) :
    (x ++ "→" ++ y).data = x.data ++ '→' :: y.data := by
  simp [String.data_append]

theorem arrow_key_inj {x y u v : String} (hx : '→' ∉ x.data) (hu : '→' ∉ u.data)
    (h : x ++ "→" ++ y = u ++ "→" ++ v) : x = u ∧ y = v := by
  have hdata : x.data ++ '→' :: y.data = u.data ++ '→' :: v.data := by
    rw [← arrow_key_data, ← arrow_key_data, h]
  obtain ⟨h1, h2⟩ := append_arrow_inj hx hu hdata
  exact ⟨String.ext h1, String.ext h2⟩

/-- A call site whose endpoints pass the guards always leaves its edge
key in the map, whatever the incoming state. -/
theorem mem_edgeKeys_processEdge_est (cfg : Config) (st : BState) {e : CGEdgeIn}
    {src dst : SSAFunction} (hc : e.caller = some src) (hd : e.callee = some dst)
    (hallow : inAllowedPkgs cfg src = true ∨ inAllowedPkgs cfg dst = true)
    (hs : ¬ stableFuncID src = "") (ht : ¬ stableFuncID dst = "") :
    (stableFuncID src ++ "→" ++ stableFuncID dst) ∈
      (processEdge cfg st e).edgeSet.map (fun kv => kv.1) := by
  unfold processEdge
  rw [hc, hd]
  have hcond : (!cfg.onlyPkg.isEmpty && !(inAllowedPkgs cfg src) &&
      !(inAllowedPkgs cfg dst)) = false := by
    rcases hallow with h | h <;> simp [h]
  simp only [hcond, Bool.false_eq_true, if_false]
  rw [if_neg (by simp [hs, ht])]
  unfold addEdgeEntry
  split
  · simp
  · next h => exact mem_keys_of_lookupA_not_none (by simpa using h)

theorem edgeKeys_mono_processNode {cfg : Config} {st : BState} {n : CGNodeIn}
    {k : String} (h : k ∈ st.edgeSet.map (fun kv => kv.1)) :
    k ∈ (processNode cfg st n).edgeSet.map (fun kv => kv.1) := by
  unfold processNode
  rcases n.func with _ | f
  · exact h
  · exact foldl_preserve (fun s => k ∈ s.edgeSet.map (fun kv => kv.1))
      (processEdge cfg) (fun s e hs => edgeKeys_mono_processEdge hs) n.out st h

/-- The edge key of a guard-passing call site of the raw graph is in
the final edge map. -/
theorem mem_edgeKeys_buildState (cfg : Config) (rg : RawGraph) {n : CGNodeIn}
    {e : CGEdgeIn} {src dst : SSAFunction}
    (hn : n ∈ rg.nodes) (hfun : n.func.isSome = true) (he : e ∈ n.out)
    (hc : e.caller = some src) (hd : e.callee = some dst)
    (hallow : inAllowedPkgs cfg src = true ∨ inAllowedPkgs cfg dst = true)
    (hs : ¬ stableFuncID src = "") (ht : ¬ stableFuncID dst = "") :
    (stableFuncID src ++ "→" ++ stableFuncID dst) ∈
      (buildState cfg rg).edgeSet.map (fun kv => kv.1) := by
  unfold buildState
  refine foldl_establish (fun s => _ ∈ s.edgeSet.map (fun kv => kv.1))
    (processNode cfg) n rg.nodes hn
    (fun s m _ hps => edgeKeys_mono_processNode hps) ?_ _
  intro s
  unfold processNode
  rcases hf : n.func with _ | f
  · rw [hf] at hfun; cases hfun
  · exact foldl_establish (fun s' => _ ∈ s'.edgeSet.map (fun kv => kv.1))
      (processEdge cfg) e n.out he
      (fun s' e' _ hps => edgeKeys_mono_processEdge hps)
      (fun s' => mem_edgeKeys_processEdge_est cfg s' hc hd hallow hs ht) s

/-- All edge-map entries carry an arrow-free source identity, as long
as every caller in the raw graph has an arrow-free identity. -/
def arrowInv (st : BState) : Prop :=
  ∀ ke ∈ st.edgeSet, '→' ∉ ke.2.source.data

theorem arrowInv_processEdge {cfg : Config} {st : BState} {e : CGEdgeIn}
    (harrow : ∀ f, e.caller = some f → '→' ∉ (stableFuncID f).data)
    (h : arrowInv st) : arrowInv (processEdge cfg st e) := by
  unfold processEdge
  rcases hcal : e.caller with _ | src
  · exact h
  rcases e.callee with _ | dst
  · exact h
  simp only
  split
  · exact h
  split
  · exact h
  · intro ke hke
    rcases addEdgeEntry_mem hke with hke | hke
    · exact h ke hke
    · subst hke
      exact harrow src hcal

theorem arrowInv_buildState (cfg : Config) (rg : RawGraph)
    (harrow : ∀ n ∈ rg.nodes, ∀ e ∈ n.out, ∀ f, e.caller = some f →
      '→' ∉ (stableFuncID f).data) : arrowInv (buildState cfg rg) := by
  unfold buildState
  refine foldl_preserve_mem arrowInv (processNode cfg) rg.nodes ?_ _ ?_
  · intro s n hn hs
    unfold processNode
    rcases n.func with _ | f
    · exact hs
    · exact foldl_preserve_mem arrowInv (processEdge cfg) n.out
        (fun s' e' he' hs' => arrowInv_processEdge (harrow n hn e' he') hs') s hs
  · intro ke hke
    cases hke

/-- A call site whose endpoints both fail the allow-list is dropped:
the state is unchanged. -/
theorem processEdge_drops {cfg : Config} {st : BState} {e : CGEdgeIn}
    {src dst : SSAFunction} (hc : e.caller = some src) (hd : e.callee = some dst)
    (hne : cfg.onlyPkg ≠ []) (h1 : inAllowedPkgs cfg src = false)
    (h2 : inAllowedPkgs cfg dst = false) : processEdge cfg st e = st := by
  unfold processEdge
  rw [hc, hd]
  have hemp : cfg.onlyPkg.isEmpty = false := by
    rcases hl : cfg.onlyPkg with _ | ⟨x, xs⟩
    · exact absurd hl hne
    · rfl
  simp [hemp, h1, h2]

/-- A guard-passing call site of the raw graph yields an edge with its
exact endpoints in the final output, provided caller identities are
free of the key-separator character. -/
theorem assemble_retains_edge (cfg : Config) (rg : RawGraph) (algo : String)
    {n : CGNodeIn} {e : CGEdgeIn} {src dst : SSAFunction}
    (hn : n ∈ rg.nodes) (hfun : n.func.isSome = true) (he : e ∈ n.out)
    (hc : e.caller = some src) (hd : e.callee = some dst)
    (hallow : inAllowedPkgs cfg src = true ∨ inAllowedPkgs cfg dst = true)
    (hs : ¬ stableFuncID src = "") (ht : ¬ stableFuncID dst = "")
    (harrow : ∀ n' ∈ rg.nodes, ∀ e' ∈ n'.out, ∀ f, e'.caller = some f →
      '→' ∉ (stableFuncID f).data) :
    ∃ ed ∈ (assemble cfg rg algo).edges,
      ed.source = stableFuncID src ∧ ed.target = stableFuncID dst := by
  have hkey := mem_edgeKeys_buildState cfg rg hn hfun he hc hd hallow hs ht
  obtain ⟨ke, hke, hkeq⟩ := List.mem_map.mp hkey
  obtain ⟨-, -, -, he2⟩ := stInv_buildState cfg rg
  have hshape := (he2 ke hke).1
  have harr := arrowInv_buildState cfg rg harrow ke hke
  have hsrcarrow := harrow n hn e he src hc
  have hsplit := arrow_key_inj harr hsrcarrow (by rw [← hshape, hkeq])
  refine ⟨ke.2, ?_, hsplit.1, hsplit.2⟩
  exact (assemble_edges_perm cfg rg algo).mem_iff.mpr (List.mem_map_of_mem _ hke)

theorem foldl_noop {α σ : Type} {f : σ → α → σ} :
    ∀ {l : List α}, (∀ a ∈ l, ∀ s, f s a = s) → ∀ s, l.foldl f s = s
  | [], _, _ => rfl
  | a :: l, h, s => by
    rw [List.foldl_cons, h a (List.mem_cons_self a l) s]
    exact foldl_noop (fun b hb => h b (List.mem_cons_of_mem a hb)) s

/-- When every endpoint of the raw graph fails the allow-list, the
whole pass is a no-op and the output graph is empty. -/
theorem assemble_empty_of_all_disallowed (cfg : Config) (rg : RawGraph) (algo : String)
    (hne : cfg.onlyPkg ≠ [])
    (hall : ∀ n ∈ rg.nodes, ∀ e ∈ n.out, ∀ f : SSAFunction,
      (e.caller = some f ∨ e.callee = some f) → inAllowedPkgs cfg f = false) :
    (assemble cfg rg algo).nodes = [] ∧ (assemble cfg rg algo).edges = [] := by
  have hbs : buildState cfg rg = { nodeSet := [], edgeSet := [] } := by
    unfold buildState
    refine foldl_noop ?_ _
    intro n hn s
    unfold processNode
    rcases n.func with _ | f
    · rfl
    simp only
    refine foldl_noop ?_ s
    intro e he s'
    rcases hcal : e.caller with _ | src
    · unfold processEdge; rw [hcal]
    rcases hcee : e.callee with _ | dst
    · unfold processEdge; rw [hcal, hcee]
    exact processEdge_drops hcal hcee hne
      (hall n hn e he src (Or.inl hcal)) (hall n hn e he dst (Or.inr hcee))
  constructor
  · show sortNodes ((buildState cfg rg).nodeSet.map (fun kv => kv.2)) = []
    rw [hbs]
    rfl
  · show sortEdges ((buildState cfg rg).edgeSet.map (fun kv => kv.2)) = []
    rw [hbs]
    rfl

/-! ## Build dispatch facts -/

theorem Build_error_of_none {result : LoadResult} {cfg : Config}
    (h : result.ssaProgram = none) :
    Build result cfg = Except.error ("SSAProgram is nil, call LoadWithSSA with NeedSSA=true") := by
  unfold Build
  rw [h]

theorem Build_ok_of_some {result : LoadResult} {prog : SSAProgramModel} {cfg : Config}
    (h : result.ssaProgram = some prog) :
    ∃ g, Build result cfg = Except.ok g := by
  by_cases ha : toLowerStr cfg.algorithm = ""
  · rcases hr : prog.hasRoots with _ | _
    · exact ⟨assemble cfg prog.chaGraph ("cha-fallback"),
        by unfold Build; rw [h]; simp [ha, hr]⟩
    · exact ⟨assemble cfg prog.rtaGraph ("rta"),
        by unfold Build; rw [h]; simp [ha, hr]⟩
  · by_cases hb : toLowerStr cfg.algorithm = "rta"
    · rcases hr : prog.hasRoots with _ | _
      · exact ⟨assemble cfg prog.chaGraph ("cha-fallback"),
          by unfold Build; rw [h]; simp [ha, hb, hr]⟩
      · exact ⟨assemble cfg prog.rtaGraph ("rta"),
          by unfold Build; rw [h]; simp [ha, hb, hr]⟩
    · exact ⟨assemble cfg prog.chaGraph ("cha"),
        by unfold Build; rw [h]; simp [ha, hb]⟩

theorem runCallGraphIssues_empty {result : LoadResult} {cfg : Config}
    (h : ∃ g, Build result cfg = Except.ok g) :
    runCallGraphIssues result cfg = [] := by
  obtain ⟨g, hg⟩ := h
  unfold runCallGraphIssues
  rw [hg]

theorem Build_rta_of_roots {result : LoadResult} {prog : SSAProgramModel} {cfg : Config}
    (h : result.ssaProgram = some prog) (hroots : prog.hasRoots = true)
    (halgo : toLowerStr cfg.algorithm = "rta" ∨ toLowerStr cfg.algorithm = "") :
    Build result cfg = Except.ok (assemble cfg prog.rtaGraph ("rta")) := by
  unfold Build
  rw [h]
  rcases halgo with ha | ha <;> simp [ha, hroots]

theorem Build_fallback_of_no_roots {result : LoadResult} {prog : SSAProgramModel}
    {cfg : Config} (h : result.ssaProgram = some prog) (hroots : prog.hasRoots = false)
    (halgo : toLowerStr cfg.algorithm = "rta" ∨ toLowerStr cfg.algorithm = "") :
    Build result cfg = Except.ok (assemble cfg prog.chaGraph ("cha-fallback")) := by
  unfold Build
  rw [h]
  rcases halgo with ha | ha <;> simp [ha, hroots]

theorem Build_cha_of_other {result : LoadResult} {prog : SSAProgramModel} {cfg : Config}
    (h : result.ssaProgram = some prog) (h1 : toLowerStr cfg.algorithm ≠ "rta")
    (h2 : toLowerStr cfg.algorithm ≠ "") :
    Build result cfg = Except.ok (assemble cfg prog.chaGraph ("cha")) := by
  unfold Build
  rw [h]
  simp [h1, h2]

theorem assemble_algorithm (cfg : Config) (g : RawGraph) (algo : String) :
    (assemble cfg g algo).algorithm = algo := rfl

/-! ## Concrete example inputs -/

/-- A call-site position used in the examples. -/
def posA : CLDKPosition := { file := "a.go", startLine := 3, startColumn := 1 }

/-- A second call-site position. -/
def posB : CLDKPosition := { file := "a.go", startLine := 9, startColumn := 1 }

/-- Free function p.A. -/
def fA : SSAFunction :=
  { name := "A", pkgPath := some ("p"), recvType := none, stringRepr := "", pos := none }

/-- Free function p.B. -/
def fB : SSAFunction :=
  { name := "B", pkgPath := some ("p"), recvType := none, stringRepr := "", pos := none }

/-- Free function p.C. -/
def fC : SSAFunction :=
  { name := "C", pkgPath := some ("p"), recvType := none, stringRepr := "", pos := none }

/-- Free function q.B, in a different package. -/
def fQB : SSAFunction :=
  { name := "B", pkgPath := some ("q"), recvType := none, stringRepr := "", pos := none }

/-- A method with a value receiver of type p.T. -/
def fVal : SSAFunction :=
  { name := "M", pkgPath := some ("p"), recvType := some ("p.T"), stringRepr := "", pos := none }

/-- A method with a pointer receiver of type *p.T. -/
def fPtr : SSAFunction :=
  { name := "M", pkgPath := some ("p"), recvType := some ("*p.T"), stringRepr := "", pos := none }

/-- Default configuration requesting CHA with detailed positions. -/
def cfgCHA : Config := { algorithm := "cha", emitPositions := "detailed", onlyPkg := [] }

/-- Configuration requesting RTA. -/
def cfgRTA : Config := { algorithm := "rta", emitPositions := "detailed", onlyPkg := [] }

/-- Raw graph: p.A defers to p.B, calls p.B again via a goroutine
spawn (a duplicate of the same (source, target) pair), and spawns p.C. -/
def rawTwoSites : RawGraph :=
  { nodes := [ { func := some fA,
                 out := [ { caller := some fA, callee := some fB,
                            site := some { kind := SiteKind.deferSite, pos := some posA } },
                          { caller := some fA, callee := some fB,
                            site := some { kind := SiteKind.goSite, pos := some posB } },
                          { caller := some fA, callee := some fC,
                            site := some { kind := SiteKind.goSite, pos := some posB } } ] } ] }

/-- A program with entry points. -/
def progTwo : SSAProgramModel :=
  { chaGraph := rawTwoSites, rtaGraph := rawTwoSites, hasRoots := true }

/-- Load result with that program. -/
def resTwo : LoadResult := { ssaProgram := some progTwo, root := "/r" }

/-- A program with no main-package roots. -/
def progNoRoots : SSAProgramModel :=
  { chaGraph := rawTwoSites, rtaGraph := { nodes := [] }, hasRoots := false }

/-- Load result with the rootless program. -/
def resNoRoots : LoadResult := { ssaProgram := some progNoRoots, root := "/r" }

/-- Load result carrying no SSA program. -/
def resNone : LoadResult := { ssaProgram := none, root := "/r" }

/-- Cross-package raw graph: p.A calls q.B. -/
def rawCross : RawGraph :=
  { nodes := [ { func := some fA,
                 out := [ { caller := some fA, callee := some fQB,
                            site := some { kind := SiteKind.callSite, pos := none } } ] } ] }

/-- The p.A to q.B raw edge alone. -/
def crossEdge : CGEdgeIn :=
  { caller := some fA, callee := some fQB,
    site := some { kind := SiteKind.callSite, pos := none } }

/-- Allow-list keeping only package paths containing "p". -/
def cfgOnlyP : Config := { algorithm := "cha", emitPositions := "detailed", onlyPkg := ["p"] }

/-- Allow-list whose substring matches no package. -/
def cfgOnlyZ : Config := { algorithm := "cha", emitPositions := "detailed", onlyPkg := ["z"] }

/-- Spec-model example program: p.A directly calls p.B. -/
def pEx : SpecProgram :=
  { funcs := [ { fid := "p.A", sites := [SpecCallSite.direct ("p.B")], instantiates := [] },
               { fid := "p.B", sites := [], instantiates := [] } ],
    types := [], satisfies := fun _ _ => false, methodOf := fun _ _ => none }

theorem Build_ok_inv {result : LoadResult} {cfg : Config} {g : CLDKCallGraph}
    (h : Build result cfg = Except.ok g) :
    ∃ rg algo, g = assemble cfg rg algo := by
  rcases hp : result.ssaProgram with _ | prog
  · rw [Build_error_of_none hp] at h; cases h
  · by_cases ha : toLowerStr cfg.algorithm = ""
    · rcases hr : prog.hasRoots with _ | _
      · rw [Build_fallback_of_no_roots hp hr (Or.inr ha)] at h
        exact ⟨prog.chaGraph, "cha-fallback", (Except.ok.inj h).symm⟩
      · rw [Build_rta_of_roots hp hr (Or.inr ha)] at h
        exact ⟨prog.rtaGraph, "rta", (Except.ok.inj h).symm⟩
    · by_cases hb : toLowerStr cfg.algorithm = "rta"
      · rcases hr : prog.hasRoots with _ | _
        · rw [Build_fallback_of_no_roots hp hr (Or.inl hb)] at h
          exact ⟨prog.chaGraph, "cha-fallback", (Except.ok.inj h).symm⟩
        · rw [Build_rta_of_roots hp hr (Or.inl hb)] at h
          exact ⟨prog.rtaGraph, "rta", (Except.ok.inj h).symm⟩
      · rw [Build_cha_of_other hp hb ha] at h
        exact ⟨prog.chaGraph, "cha", (Except.ok.inj h).symm⟩

/-! ## The claims -/

/-- C1 (amended): for a function with a package, stableFuncID yields
pkg.name for free functions, pkg.(*T).name for pointer-receiver
methods, and pkg.T.name (with no parentheses around the bare type
name) for value-receiver methods; a function with no owning package
and a nonempty name falls back to its bare name. -/
theorem claim_C1 (f : SSAFunction) (pkg q tn : String)
    (hq : headIsStar q.data = false)
    (ht : ∀ c ∈ tn.data, (c == '.') = false) :
    (f.pkgPath = some pkg → f.recvType = none →
      stableFuncID f = pkg ++ "." ++ f.name) ∧
    (f.pkgPath = some pkg → f.recvType = some ("*" ++ q ++ "." ++ tn) →
      stableFuncID f = pkg ++ "." ++ ("(*" ++ tn ++ ")") ++ "." ++ f.name) ∧
    (f.pkgPath = some pkg → f.recvType = some (q ++ "." ++ tn) →
      stableFuncID f = pkg ++ "." ++ tn ++ "." ++ f.name) ∧
    (f.pkgPath = none → f.name ≠ "" → stableFuncID f = f.name) := by
  refine ⟨?_, ?_, ?_, ?_⟩
  · intro hp hr
    simp only [stableFuncID, hp, hr]
  · intro hp hr
    simp only [stableFuncID, hp, hr]
    rw [normalizeReceiverType_ptr q tn pkg ht]
  · intro hp hr
    simp only [stableFuncID, hp, hr]
    rw [normalizeReceiverType_value q tn pkg hq ht]
  · intro hp hn
    simp only [stableFuncID, hp]
    rw [if_neg hn]

/-- C1 counterexample: the claim's format pkg.(T).name for
value-receiver methods does not hold; the code emits pkg.T.name. -/
theorem claim_C1_counterexample :
    stableFuncID fVal = "p.T.M" ∧ ¬ stableFuncID fVal = "p.(T).M" := by decide

/-- C1 witness. -/
theorem claim_C1_witness :
    stableFuncID fPtr = "p" ++ "." ++ ("(*" ++ "T" ++ ")") ++ "." ++ "M" ∧
    stableFuncID fVal = "p" ++ "." ++ "T" ++ "." ++ "M" :=
  ⟨(claim_C1 fPtr ("p") ("p") ("T") (by decide) (by decide)).2.1 (by decide) (by decide),
   (claim_C1 fVal ("p") ("p") ("T") (by decide) (by decide)).2.2.1 (by decide) (by decide)⟩

/-- C2 (amended): requesting RTA on a program with no entry points
falls back to CHA: the result equals the CHA conversion of the CHA
graph except for the algorithm field, which carries "cha-fallback";
no separate informational diagnostic is emitted — the marker in the
algorithm field is the only signal (the CLI issue list stays empty on
a successful Build). -/
theorem claim_C2 (result : LoadResult) (prog : SSAProgramModel) (cfg : Config)
    (h : result.ssaProgram = some prog) (hroots : prog.hasRoots = false)
    (halgo : toLowerStr cfg.algorithm = "rta" ∨ toLowerStr cfg.algorithm = "") :
    Build result cfg = Except.ok (assemble cfg prog.chaGraph ("cha-fallback")) ∧
    (assemble cfg prog.chaGraph ("cha-fallback")).nodes =
      (assemble cfg prog.chaGraph ("cha")).nodes ∧
    (assemble cfg prog.chaGraph ("cha-fallback")).edges =
      (assemble cfg prog.chaGraph ("cha")).edges ∧
    (assemble cfg prog.chaGraph ("cha-fallback")).algorithm = "cha-fallback" ∧
    runCallGraphIssues result cfg = [] := by
  have hb := Build_fallback_of_no_roots h hroots halgo
  exact ⟨hb, rfl, rfl, rfl, runCallGraphIssues_empty ⟨_, hb⟩⟩

/-- C2 counterexample: the claim's "informational diagnostic is
surfaced" fails — on RTA fallback the issue list is empty; only the
algorithm field records the degradation. -/
theorem claim_C2_counterexample :
    (Build resNoRoots cfgRTA).toOption.map (fun g => g.algorithm) = some ("cha-fallback") ∧
    runCallGraphIssues resNoRoots cfgRTA = [] ∧
    ¬ ("cha-fallback" : String) = "rta" := by decide

/-- C2 witness. -/
theorem claim_C2_witness :
    Build resNoRoots cfgRTA = Except.ok (assemble cfgRTA progNoRoots.chaGraph ("cha-fallback")) ∧
    runCallGraphIssues resNoRoots cfgRTA = [] :=
  ⟨(claim_C2 resNoRoots progNoRoots cfgRTA rfl rfl (Or.inl (by decide))).1,
   (claim_C2 resNoRoots progNoRoots cfgRTA rfl rfl (Or.inl (by decide))).2.2.2.2⟩

/-- C3 (amended): every emitted edge's kind is one of "call", "defer",
"go" or the empty string (for a nil call site): a deferred call yields
"defer" (not "deferred"), a goroutine spawn yields "go" (not
"concurrent-spawn"), an ordinary call yields "call". -/
theorem claim_C3 :
    (∀ result cfg g, Build result cfg = Except.ok g →
      ∀ e ∈ g.edges, e.kind ∈ (["call", "defer", "go", ""] : List String)) ∧
    (∀ cfg srcID dstID p,
      (mkEdge cfg srcID dstID (some { kind := SiteKind.deferSite, pos := p })).kind = "defer" ∧
      (mkEdge cfg srcID dstID (some { kind := SiteKind.goSite, pos := p })).kind = "go" ∧
      (mkEdge cfg srcID dstID (some { kind := SiteKind.callSite, pos := p })).kind = "call") := by
  constructor
  · intro result cfg g h
    obtain ⟨rg, algo, rfl⟩ := Build_ok_inv h
    exact assemble_edge_kinds cfg rg algo
  · intro cfg srcID dstID p
    exact ⟨rfl, rfl, rfl⟩

/-- C3 counterexample: a deferred call site produces kind "defer" and
a goroutine spawn "go", not the claimed "deferred" and
"concurrent-spawn". -/
theorem claim_C3_counterexample :
    (Build resTwo cfgCHA).toOption.map (fun g => g.edges.map (fun e => e.kind)) =
      some ["defer", "go"] ∧
    ¬ ("defer" : String) = "deferred" ∧ ¬ ("go" : String) = "concurrent-spawn" := by decide

/-- C3 witness. -/
theorem claim_C3_witness :
    ({ source := "p.A", target := "p.B", callSite := some posA,
       kind := "defer" } : CLDKCGEdge).kind ∈ (["call", "defer", "go", ""] : List String) :=
  claim_C3.1 resTwo cfgCHA (assemble cfgCHA rawTwoSites ("cha")) (by rfl) _ (by decide)

/-- C4: every graph Build returns has its node list sorted by identity
ascending and its edge list sorted lexicographically by (source,
target); the sort is order-independent — emitting the deduplication
maps in any iteration order yields identical sorted lists, since
identities and (source, target) pairs are duplicate-free. -/
theorem claim_C4 :
    (∀ result cfg g, Build result cfg = Except.ok g →
      List.Sorted nodeLe g.nodes ∧ List.Sorted edgeLe g.edges) ∧
    (∀ l1 l2 : List CLDKCGNode, l1.Perm l2 → (l1.map (fun n => n.id)).Nodup →
      sortNodes l1 = sortNodes l2) ∧
    (∀ l1 l2 : List CLDKCGEdge, l1.Perm l2 →
      (l1.map (fun e => (e.source, e.target))).Nodup → sortEdges l1 = sortEdges l2) := by
  refine ⟨?_, ?_, ?_⟩
  · intro result cfg g h
    obtain ⟨rg, algo, rfl⟩ := Build_ok_inv h
    exact ⟨sortNodes_sorted _, sortEdges_sorted _⟩
  · intro l1 l2 hp hn
    exact sortNodes_eq_of_perm hp hn
  · intro l1 l2 hp hn
    exact sortEdges_eq_of_perm hp hn

/-- C4 witness. -/
theorem claim_C4_witness :
    List.Sorted nodeLe (assemble cfgCHA rawTwoSites ("cha")).nodes ∧
    List.Sorted edgeLe (assemble cfgCHA rawTwoSites ("cha")).edges :=
  claim_C4.1 resTwo cfgCHA (assemble cfgCHA rawTwoSites ("cha")) (by rfl)

/-- C5: edge deduplication is idempotent: no two edges of an emitted
graph share a (source, target) pair; once a key has an entry, later
call sites for the same pair leave it unchanged, so the retained edge
carries the first observed kind and position — concretely, two call
sites A to B (a defer at posA first, then a go at posB) emit exactly
one edge with kind "defer" and position posA. -/
theorem claim_C5 :
    (∀ result cfg g, Build result cfg = Except.ok g →
      g.edges.Pairwise (fun e1 e2 => e1.source ≠ e2.source ∨ e1.target ≠ e2.target)) ∧
    (∀ (cfg : Config) (st : BState) (e : CGEdgeIn) (k : String) (ed : CLDKCGEdge),
      lookupA st.edgeSet k = some ed →
      lookupA (processEdge cfg st e).edgeSet k = some ed) ∧
    ((Build resTwo cfgCHA).toOption.map (fun g => g.edges) =
      some [ { source := "p.A", target := "p.B", callSite := some posA, kind := "defer" },
             { source := "p.A", target := "p.C", callSite := some posB, kind := "go" } ]) := by
  refine ⟨?_, ?_, by decide⟩
  · intro result cfg g h
    obtain ⟨rg, algo, rfl⟩ := Build_ok_inv h
    exact assemble_edges_pairwise cfg rg algo
  · intro cfg st e k ed h
    exact lookupA_processEdge_of_some h

/-- C5 witness. -/
theorem claim_C5_witness :
    (assemble cfgCHA rawTwoSites ("cha")).edges.Pairwise
      (fun e1 e2 => e1.source ≠ e2.source ∨ e1.target ≠ e2.target) :=
  claim_C5.1 resTwo cfgCHA (assemble cfgCHA rawTwoSites ("cha")) (by rfl)

/-- C6: with an allow-list configured, a call site whose two endpoints
both fail the substring match is dropped (state unchanged); a call
site with at least one endpoint allowed is retained in the output
(given nonempty identities, and caller identities free of the
key-separator character); when every endpoint fails the match the
output graph has zero nodes and zero edges; and a successful Build
never raises a diagnostic. -/
theorem claim_C6 :
    (∀ (cfg : Config) (st : BState) (e : CGEdgeIn) (src dst : SSAFunction),
      e.caller = some src → e.callee = some dst → cfg.onlyPkg ≠ [] →
      inAllowedPkgs cfg src = false → inAllowedPkgs cfg dst = false →
      processEdge cfg st e = st) ∧
    (∀ (cfg : Config) (rg : RawGraph) (algo : String) (n : CGNodeIn) (e : CGEdgeIn)
      (src dst : SSAFunction), n ∈ rg.nodes → n.func.isSome = true → e ∈ n.out →
      e.caller = some src → e.callee = some dst →
      (inAllowedPkgs cfg src = true ∨ inAllowedPkgs cfg dst = true) →
      ¬ stableFuncID src = "" → ¬ stableFuncID dst = "" →
      (∀ n' ∈ rg.nodes, ∀ e' ∈ n'.out, ∀ f, e'.caller = some f →
        '→' ∉ (stableFuncID f).data) →
      ∃ ed ∈ (assemble cfg rg algo).edges,
        ed.source = stableFuncID src ∧ ed.target = stableFuncID dst) ∧
    (∀ (cfg : Config) (rg : RawGraph) (algo : String), cfg.onlyPkg ≠ [] →
      (∀ n ∈ rg.nodes, ∀ e ∈ n.out, ∀ f : SSAFunction,
        (e.caller = some f ∨ e.callee = some f) → inAllowedPkgs cfg f = false) →
      (assemble cfg rg algo).nodes = [] ∧ (assemble cfg rg algo).edges = []) ∧
    (∀ (result : LoadResult) (prog : SSAProgramModel) (cfg : Config),
      result.ssaProgram = some prog → runCallGraphIssues result cfg = []) := by
  refine ⟨?_, ?_, ?_, ?_⟩
  · intro cfg st e src dst hc hd hne h1 h2
    exact processEdge_drops hc hd hne h1 h2
  · intro cfg rg algo n e src dst hn hfun he hc hd hallow hs ht harrow
    exact assemble_retains_edge cfg rg algo hn hfun he hc hd hallow hs ht harrow
  · intro cfg rg algo hne hall
    exact assemble_empty_of_all_disallowed cfg rg algo hne hall
  · intro result prog cfg h
    exact runCallGraphIssues_empty (Build_ok_of_some h)

/-- C6 witness. -/
theorem claim_C6_witness :
    processEdge cfgOnlyZ { nodeSet := [], edgeSet := [] } crossEdge =
      { nodeSet := [], edgeSet := [] } ∧
    ∃ ed ∈ (assemble cfgOnlyP rawCross ("cha")).edges,
      ed.source = stableFuncID fA ∧ ed.target = stableFuncID fQB :=
  ⟨claim_C6.1 cfgOnlyZ { nodeSet := [], edgeSet := [] } crossEdge fA fQB rfl rfl
      (by decide) (by decide) (by decide),
   claim_C6.2.1 cfgOnlyP rawCross ("cha")
      { func := some fA, out := [crossEdge] } crossEdge fA fQB
      (by decide) rfl (by decide) rfl rfl (Or.inl (by decide)) (by decide) (by decide)
      (by
        intro n' hn' e' he' f hf
        simp only [rawCross, List.mem_singleton] at hn'
        subst hn'
        simp only [List.mem_singleton] at he'
        subst he'
        injection hf with hf
        subst hf
        decide)⟩

/-- C7: both endpoints of every emitted edge are present as nodes, and
node identities are unique. -/
theorem claim_C7 (result : LoadResult) (cfg : Config) (g : CLDKCallGraph)
    (h : Build result cfg = Except.ok g) :
    (∀ e ∈ g.edges, (∃ n ∈ g.nodes, n.id = e.source) ∧
      (∃ n ∈ g.nodes, n.id = e.target)) ∧
    (g.nodes.map (fun n => n.id)).Nodup := by
  obtain ⟨rg, algo, rfl⟩ := Build_ok_inv h
  exact ⟨assemble_edge_endpoints cfg rg algo, assemble_nodes_ids_nodup cfg rg algo⟩

/-- C7 witness. -/
theorem claim_C7_witness :
    ((assemble cfgCHA rawTwoSites ("cha")).nodes.map (fun n => n.id)).Nodup :=
  (claim_C7 resTwo cfgCHA (assemble cfgCHA rawTwoSites ("cha")) (by rfl)).2

/-- C8: Build fails exactly when the SSA program is absent: a nil
SSAProgram yields the fatal error, and any load result carrying a
program yields a graph and no error, whatever the algorithm, entry
points or raw-graph content. -/
theorem claim_C8 (result : LoadResult) (cfg : Config) :
    (result.ssaProgram = none →
      Build result cfg =
        Except.error ("SSAProgram is nil, call LoadWithSSA with NeedSSA=true")) ∧
    (∀ prog, result.ssaProgram = some prog → ∃ g, Build result cfg = Except.ok g) := by
  constructor
  · intro h
    exact Build_error_of_none h
  · intro prog h
    exact Build_ok_of_some h

/-- C8 witness. -/
theorem claim_C8_witness :
    Build resNone cfgCHA =
      Except.error ("SSAProgram is nil, call LoadWithSSA with NeedSSA=true") ∧
    ∃ g, Build resTwo cfgCHA = Except.ok g :=
  ⟨(claim_C8 resNone cfgCHA).1 rfl, (claim_C8 resTwo cfgCHA).2 progTwo rfl⟩

/-- C9: for any program and entry points, the functions appearing as
nodes of the RTA-built graph are a subset of those of the CHA-built
graph (spec-modelled CHA/RTA builders; requires only that bodies
instantiate declared types). -/
theorem claim_C9 (p : SpecProgram) (entries : List String)
    (hwf : ∀ F ∈ p.funcs, ∀ T ∈ F.instantiates, T ∈ p.types) :
    ∀ f ∈ nodesOfEdges (rtaEdges p entries), f ∈ nodesOfEdges (chaEdges p) := by
  intro f hf
  obtain ⟨e, he, hfe⟩ := List.mem_flatMap.mp hf
  exact List.mem_flatMap.mpr ⟨e, rtaEdges_subset_chaEdges hwf e he, hfe⟩

/-- C9 witness. -/
theorem claim_C9_witness : "p.B" ∈ nodesOfEdges (chaEdges pEx) :=
  claim_C9 pEx ["p.A"] (by decide) "p.B" (by decide)

/-- Configuration with an invalid algorithm name. -/
def cfgXYZ : Config := { algorithm := "xyz", emitPositions := "detailed", onlyPkg := [] }

/-- Configuration with an empty algorithm name. -/
def cfgEmptyAlgo : Config := { algorithm := "", emitPositions := "detailed", onlyPkg := [] }

/-- C10: Build never rejects the algorithm string: with a program
present it always succeeds; an empty algorithm dispatches exactly as
"rta" does (RTA with roots, CHA fallback without); any other string
whose lowercase form is not "rta" selects CHA and stamps the output's
algorithm field "cha"; name validation lives only in the CLI
(validateConfig), which rejects "xyz" while Build accepts it. -/
theorem claim_C10 :
    (∀ (result : LoadResult) (prog : SSAProgramModel) (cfg : Config),
      result.ssaProgram = some prog → ∃ g, Build result cfg = Except.ok g) ∧
    (∀ (result : LoadResult) (prog : SSAProgramModel) (cfg : Config),
      result.ssaProgram = some prog → toLowerStr cfg.algorithm = "" →
      prog.hasRoots = true →
      Build result cfg = Except.ok (assemble cfg prog.rtaGraph ("rta"))) ∧
    (∀ (result : LoadResult) (prog : SSAProgramModel) (cfg : Config),
      result.ssaProgram = some prog → toLowerStr cfg.algorithm = "" →
      prog.hasRoots = false →
      Build result cfg = Except.ok (assemble cfg prog.chaGraph ("cha-fallback"))) ∧
    (∀ (result : LoadResult) (prog : SSAProgramModel) (cfg : Config),
      result.ssaProgram = some prog → toLowerStr cfg.algorithm ≠ "rta" →
      toLowerStr cfg.algorithm ≠ "" →
      Build result cfg = Except.ok (assemble cfg prog.chaGraph ("cha")) ∧
      (assemble cfg prog.chaGraph ("cha")).algorithm = "cha") ∧
    (cgAlgoValid ("xyz") = false ∧
      (Build resTwo cfgXYZ).toOption.map (fun g => g.algorithm) = some ("cha")) := by
  refine ⟨?_, ?_, ?_, ?_, by decide⟩
  · intro result prog cfg h
    exact Build_ok_of_some h
  · intro result prog cfg h ha hr
    exact Build_rta_of_roots h hr (Or.inr ha)
  · intro result prog cfg h ha hr
    exact Build_fallback_of_no_roots h hr (Or.inr ha)
  · intro result prog cfg h h1 h2
    exact ⟨Build_cha_of_other h h1 h2, rfl⟩

/-- C10 witness. -/
theorem claim_C10_witness :
    Build resTwo cfgEmptyAlgo = Except.ok (assemble cfgEmptyAlgo progTwo.rtaGraph ("rta")) ∧
    Build resTwo cfgXYZ = Except.ok (assemble cfgXYZ progTwo.chaGraph ("cha")) :=
  ⟨claim_C10.2.1 resTwo progTwo cfgEmptyAlgo rfl (by decide) rfl,
   (claim_C10.2.2.2.1 resTwo progTwo cfgXYZ rfl (by decide) (by decide)).1⟩
